import Mathlib

/-!
Verification development for the EYG abstract machine of this repository
(the stack-machine interpreter: `State`, `eval`/`apply`/`call`, `Loop`,
`Resume`, the builtin table, and the external driver `Exec`).

The Go source represents expressions as `map[string]interface{}` with a
type tag under key "0"; here the same grammar is a closed inductive type.
Go `Environment` values are mutable maps shared by reference (`s.Env =
c.Env` aliases; `s.Env[l] = v` mutates in place), so environments are
modelled as addresses (`Nat`) into an explicit store of association
lists; `copyEnv`/`copyEnvFrom` allocate a fresh address.  All other Go
values (slices, the continuation stack, `Partial.Applied`) are never
mutated in place after being shared, so they are modelled by value.
-/

/-- Implementation tag of a Go `Partial.Impl` function pointer.  The set of
functions ever stored in `Impl` is closed (the `eval` cases and the
builtin table), so it is modelled as a first-order tag dispatched by
`runImpl`. -/
inductive Impl where
  | consI : Impl
  | extendI (label : String) : Impl
  | selectI (label : String) : Impl
  | tagI (label : String) : Impl
  | caseI (label : String) : Impl
  | nocasesI : Impl
  | performI (label : String) : Impl
  | handleI (label : String) : Impl
  | builtinI (name : String) : Impl
deriving Repr, DecidableEq

mutual

/-- Go `Expression` (tagged map keyed by "0").  The `v` field of an INT /
STRING node always holds a number / string in this repository, so those
constructors carry `Int` / `String` directly; BINARY stores its payload
verbatim (`s.SetValue(v)` in the source), so it carries a `Value`. -/
inductive Expr where
  | varE (label : String) : Expr
  | lambdaE (label : String) (body : Expr) : Expr
  | applyE (fn : Expr) (arg : Expr) : Expr
  | letE (label : String) (value : Expr) (thenE : Expr) : Expr
  | vacantE : Expr
  | binaryE (v : Value) : Expr
  | intE (n : Int) : Expr
  | strE (s : String) : Expr
  | tailE : Expr
  | consE : Expr
  | emptyE : Expr
  | extendE (label : String) : Expr
  | overwriteE (label : String) : Expr
  | selectE (label : String) : Expr
  | tagE (label : String) : Expr
  | caseE (label : String) : Expr
  | nocasesE : Expr
  | performE (label : String) : Expr
  | handleE (label : String) : Expr
  | builtinE (label : String) : Expr

/-- Go `Value` (`interface{}`).  Go integers are `float64` holding integral
values, modelled as `Int`.  Records are `map[string]Value`, modelled as
association lists with unique keys.  `vNil` is the Go `nil` interface
value (e.g. what `GetVariable` returns for a missing name).  A Go
`Closure` stores the whole `Lambda` expression plus a captured
environment reference; a Go `Partial` stores the originating expression,
the applied arguments, and the implementation pointer.  Go compares
`*Closure`/`*Partial`/`*Resume` by pointer identity, which a value model
cannot observe; `valuesEqual` below returns `false` for such pairs. -/
inductive Value where
  | vNil : Value
  | vInt (n : Int) : Value
  | vStr (s : String) : Value
  | vList (items : List Value) : Value
  | vRecord (fields : List (String × Value)) : Value
  | vTagged (tag : String) (payload : Value) : Value
  | vClosure (lam : Expr) (captured : Nat) : Value
  | vPartApp (exp : Expr) (applied : List Value) (impl : Impl) : Value
  | vResume (reversed : List Continuation) : Value

/-- Go `Continuation` frame kinds.  Environment fields are store
addresses. -/
inductive Continuation where
  | argCont (arg : Expr) (env : Nat) : Continuation
  | applyCont (fn : Value) (env : Nat) : Continuation
  | callCont (arg : Value) (env : Nat) : Continuation
  | assignCont (label : String) (thenE : Expr) (env : Nat) : Continuation
  | delimitCont (label : String) (handle : Value) : Continuation

end

/-- Go `Break` condition: the maps `{"UndefinedVariable": l}` etc., the
`*Effect` struct, and `fmt.Errorf` errors. -/
inductive BreakV where
  | effect (label : String) (lift : Value) : BreakV
  | undefinedVariable (label : String) : BreakV
  | undefinedBuiltin (label : String) : BreakV
  | notImplemented : BreakV
  | errorMsg (msg : String) : BreakV

/-- Go `State.Control` together with the `IsValue` distinction: either an
`Expression` or a `Value`. -/
inductive Ctl where
  | expr (e : Expr) : Ctl
  | val (v : Value) : Ctl

/-- One Go `Environment` map, as an association list with unique keys. -/
abbrev EnvMap := List (String × Value)

/-- Go `State`: control, current environment (a store address), the store
of all allocated environment maps, the continuation stack (top at the
head), and the break condition. -/
structure MState where
  control : Ctl
  isValue : Bool
  env : Nat
  store : List EnvMap
  stack : List Continuation
  brk : Option BreakV

/-- Value of the control slot, as the Go `value := s.Control` interface
read in `apply` (an `Expression` sitting in control while `IsValue` is
set cannot arise from the transitions modelled here). -/
def ctlVal : Ctl → Value
  | .val v => v
  | .expr _ => .vNil

/-- Lookup in one environment map (Go `s.Env[label]`). -/
def envLookup (fields : EnvMap) (l : String) : Option Value :=
  match fields with
  | [] => none
  | (k, v) :: rest => if k = l then some v else envLookup rest l

/-- Go map assignment `m[l] = v`: replace the binding if present,
otherwise add it. -/
def envInsert (l : String) (v : Value) : EnvMap → EnvMap
  | [] => [(l, v)]
  | (k, w) :: rest => if k = l then (l, v) :: rest else (k, w) :: envInsert l v rest

/-- Read the environment map at an address. -/
def storeGet (store : List EnvMap) (a : Nat) : EnvMap :=
  store.getD a []

/-- Overwrite the environment map at an address (an in-place Go map
mutation seen through the store). -/
def storeSet (store : List EnvMap) (a : Nat) (e : EnvMap) : List EnvMap :=
  store.set a e

/-- Allocate a fresh environment map (Go `make(Environment)` plus copy in
`copyEnv` / `copyEnvFrom`); returns the new address. -/
def alloc (store : List EnvMap) (e : EnvMap) : Nat × List EnvMap :=
  (store.length, store ++ [e])

/-- Set the control to a value (Go `State.SetValue`). -/
def setValue (s : MState) (v : Value) : MState :=
  { s with control := .val v, isValue := true }

/-- Set the break condition. -/
def brkSet (s : MState) (b : BreakV) : MState :=
  { s with brk := some b }

theorem envLookup_sizeOf {fields : EnvMap} {l : String} {w : Value}
    (h : envLookup fields l = some w) : sizeOf w < sizeOf fields := by
  induction fields with
  | nil => simp [envLookup] at h
  | cons kv rest ih =>
    obtain ⟨k, v⟩ := kv
    rw [envLookup] at h
    by_cases hk : k = l
    · simp [hk] at h
      subst h
      simp
      omega
    · simp [hk] at h
      have := ih h
      simp
      omega

mutual

/-- Go `State.valuesEqual`: `*Tagged` values compare tag then payload;
slices compare length then elementwise; maps compare length then every
key of the first against the second; all remaining cases are Go `a == b`
(value equality for numbers, strings and `nil`, pointer identity for
`*Closure`/`*Partial`/`*Resume`, modelled as `false`, and `false` across
distinct dynamic types). -/
def valuesEqual : Value → Value → Bool
  | .vTagged t p, b =>
    match b with
    | .vTagged u q => t == u && valuesEqual p q
    | _ => false
  | .vList xs, b =>
    match b with
    | .vList ys => xs.length == ys.length && valuesEqualList xs ys
    | _ => false
  | .vRecord fa, b =>
    match b with
    | .vRecord fb => fa.length == fb.length && valuesEqualFields fa fb
    | _ => false
  | .vNil, b => match b with | .vNil => true | _ => false
  | .vInt a, b => match b with | .vInt c => a == c | _ => false
  | .vStr a, b => match b with | .vStr c => a == c | _ => false
  | .vClosure _ _, _ => false
  | .vPartApp _ _ _, _ => false
  | .vResume _, _ => false
termination_by a b => sizeOf a + sizeOf b

/-- Elementwise comparison of two slices (run under the length guard). -/
def valuesEqualList : List Value → List Value → Bool
  | [], _ => true
  | _ :: _, [] => true
  | a :: as, b :: bs => valuesEqual a b && valuesEqualList as bs
termination_by as bs => sizeOf as + sizeOf bs

/-- Comparison of every binding of the first map against the second (run
under the length guard). -/
def valuesEqualFields : EnvMap → EnvMap → Bool
  | [], _ => true
  | (k, v) :: rest, fb =>
    (match h : envLookup fb k with
     | some w => valuesEqual v w
     | none => false) && valuesEqualFields rest fb
termination_by fa fb => sizeOf fa + sizeOf fb
decreasing_by
  all_goals simp_wf
  all_goals have h2 := envLookup_sizeOf h
  all_goals omega

end

/-- Go `State.getBuiltinArgCount`: the declared-arity table; unknown names
default to 1. -/
def getBuiltinArgCount (name : String) : Nat :=
  match name with
  | "equal" => 2
  | "fix" => 1
  | "fixed" => 2
  | "int_compare" => 2
  | "int_add" => 2
  | "int_subtract" => 2
  | "int_multiply" => 2
  | "int_divide" => 2
  | "int_absolute" => 1
  | "int_parse" => 1
  | "int_to_string" => 1
  | "string_append" => 2
  | "string_split" => 2
  | "string_split_once" => 2
  | "string_replace" => 3
  | "string_uppercase" => 1
  | "string_lowercase" => 1
  | "string_ends_with" => 2
  | "string_starts_with" => 2
  | "string_length" => 1
  | "list_pop" => 1
  | "list_fold" => 3
  | "string_to_binary" => 1
  | "string_from_binary" => 1
  | "binary_from_integers" => 1
  | "binary_fold" => 3
  | _ => 1

/-- Go `State.getRequiredArgs`: required argument count of a `Partial`,
derived from its originating expression; default 1. -/
def getRequiredArgs (e : Expr) : Nat :=
  match e with
  | .consE | .extendE _ | .overwriteE _ => 2
  | .selectE _ | .tagE _ | .performE _ => 1
  | .caseE _ => 3
  | .handleE _ => 2
  | .builtinE label => getBuiltinArgCount label
  | _ => 1

/-- Names present in the Go `State.getBuiltin` dispatch table (`nil` for
any other name). -/
def knownBuiltin (name : String) : Bool :=
  match name with
  | "equal" | "fix" | "fixed" | "int_compare" | "int_add" | "int_subtract"
  | "int_multiply" | "int_divide" | "int_absolute" | "int_parse"
  | "int_to_string" | "string_append" | "string_split" | "string_split_once"
  | "string_replace" | "string_uppercase" | "string_lowercase"
  | "string_ends_with" | "string_starts_with" | "string_length"
  | "list_pop" | "list_fold" | "string_to_binary" | "string_from_binary"
  | "binary_from_integers" | "binary_fold" => true
  | _ => false

/-- The `Partial` value pushed by `builtinFix` / `builtinFixed` /
`builtinListFold` for the recursive `fixed` call. -/
def fixedPartial (builder : Value) : Value :=
  .vPartApp (.builtinE "fixed") [builder] (.builtinI "fixed")

/-- Go builtin implementations (`State.builtin*`).  Each receives exactly
`getBuiltinArgCount name` arguments from `call`; the argument-count and
type guards of the source are kept.  The builtins backed by Go standard
library string/binary codecs that no claim exercises (`int_parse`,
`string_split`, `string_split_once`, `string_replace`,
`string_uppercase`, `string_lowercase`, `string_to_binary`,
`string_from_binary`, `binary_from_integers`, `binary_fold`) are left as
explicit unmodelled breaks. -/
def runBuiltin (name : String) (args : List Value) (s : MState) : MState :=
  match name with
  | "equal" =>
    match args with
    | [a, b] =>
      if valuesEqual a b then setValue s (.vTagged "True" (.vRecord []))
      else setValue s (.vTagged "False" (.vRecord []))
    | _ => brkSet s (.errorMsg "equal expects 2 arguments")
  | "fix" =>
    match args with
    | [builder] =>
      let (a, store') := alloc s.store (storeGet s.store s.env)
      setValue { s with store := store',
                        stack := .callCont (fixedPartial builder) a :: s.stack } builder
    | _ => brkSet s (.errorMsg "fix expects 1 argument")
  | "fixed" =>
    match args with
    | [builder, arg] =>
      let (a1, st1) := alloc s.store (storeGet s.store s.env)
      let (a2, st2) := alloc st1 (storeGet st1 s.env)
      setValue { s with store := st2,
                        stack := .callCont (fixedPartial builder) a2 ::
                                 .callCont arg a1 :: s.stack } builder
    | _ => brkSet s (.errorMsg "fixed expects 2 arguments")
  | "int_compare" =>
    match args with
    | [.vInt a, .vInt b] =>
      setValue s (if a < b then .vTagged "Lt" (.vRecord [])
                  else if a > b then .vTagged "Gt" (.vRecord [])
                  else .vTagged "Eq" (.vRecord []))
    | [_, _] => brkSet s (.errorMsg "int_compare expects integer arguments")
    | _ => brkSet s (.errorMsg "int_compare expects 2 arguments")
  | "int_add" =>
    match args with
    | [.vInt a, .vInt b] => setValue s (.vInt (a + b))
    | [_, _] => brkSet s (.errorMsg "int_add expects integer arguments")
    | _ => brkSet s (.errorMsg "int_add expects 2 arguments")
  | "int_subtract" =>
    match args with
    | [.vInt a, .vInt b] => setValue s (.vInt (a - b))
    | [_, _] => brkSet s (.errorMsg "int_subtract expects integer arguments")
    | _ => brkSet s (.errorMsg "int_subtract expects 2 arguments")
  | "int_multiply" =>
    match args with
    | [.vInt a, .vInt b] => setValue s (.vInt (a * b))
    | [_, _] => brkSet s (.errorMsg "int_multiply expects integer arguments")
    | _ => brkSet s (.errorMsg "int_multiply expects 2 arguments")
  | "int_divide" =>
    match args with
    | [.vInt a, .vInt b] =>
      if b = 0 then setValue s (.vTagged "Error" (.vRecord []))
      else setValue s (.vTagged "Ok" (.vInt (Int.tdiv a b)))
    | [_, _] => brkSet s (.errorMsg "int_divide expects integer arguments")
    | _ => brkSet s (.errorMsg "int_divide expects 2 arguments")
  | "int_absolute" =>
    match args with
    | [.vInt a] => setValue s (.vInt (if a < 0 then -a else a))
    | [_] => brkSet s (.errorMsg "int_absolute expects integer argument")
    | _ => brkSet s (.errorMsg "int_absolute expects 1 argument")
  | "int_to_string" =>
    match args with
    | [.vInt a] => setValue s (.vStr (toString a))
    | [_] => brkSet s (.errorMsg "int_to_string expects integer argument")
    | _ => brkSet s (.errorMsg "int_to_string expects 1 argument")
  | "string_append" =>
    match args with
    | [.vStr a, .vStr b] => setValue s (.vStr (a ++ b))
    | [_, _] => brkSet s (.errorMsg "string_append expects string arguments")
    | _ => brkSet s (.errorMsg "string_append expects 2 arguments")
  | "string_ends_with" =>
    match args with
    | [.vStr str, .vStr suffix] =>
      setValue s (if str.endsWith suffix then .vTagged "True" (.vRecord [])
                  else .vTagged "False" (.vRecord []))
    | [_, _] => brkSet s (.errorMsg "string_ends_with expects string arguments")
    | _ => brkSet s (.errorMsg "string_ends_with expects 2 arguments")
  | "string_starts_with" =>
    match args with
    | [.vStr str, .vStr pre] =>
      setValue s (if str.startsWith pre then .vTagged "True" (.vRecord [])
                  else .vTagged "False" (.vRecord []))
    | [_, _] => brkSet s (.errorMsg "string_starts_with expects string arguments")
    | _ => brkSet s (.errorMsg "string_starts_with expects 2 arguments")
  | "string_length" =>
    match args with
    | [.vStr a] => setValue s (.vInt (a.utf8ByteSize : Int))
    | [_] => brkSet s (.errorMsg "string_length expects string argument")
    | _ => brkSet s (.errorMsg "string_length expects 1 argument")
  | "list_pop" =>
    match args with
    | [.vList list] =>
      match list with
      | [] => setValue s (.vTagged "Error" (.vRecord []))
      | head :: tail =>
        setValue s (.vTagged "Ok" (.vRecord [("head", head), ("tail", .vList tail)]))
    | [_] => brkSet s (.errorMsg "list_pop expects list argument")
    | _ => brkSet s (.errorMsg "list_pop expects 1 argument")
  | "list_fold" =>
    match args with
    | [.vList list, st0, fn] =>
      match list with
      | [] => setValue s st0
      | head :: tail =>
        let (a1, st1) := alloc s.store (storeGet s.store s.env)
        let (a2, st2) := alloc st1 (storeGet st1 s.env)
        let (a3, st3) := alloc st2 (storeGet st2 s.env)
        let (a4, st4) := alloc st3 (storeGet st3 s.env)
        setValue { s with store := st4,
                          stack := .callCont head a4 ::
                                   .callCont st0 a3 ::
                                   .applyCont (.vPartApp (.builtinE "list_fold")
                                       [.vList tail] (.builtinI "list_fold")) a2 ::
                                   .callCont fn a1 :: s.stack } fn
    | [_, _, _] => brkSet s (.errorMsg "list_fold expects list as first argument")
    | _ => brkSet s (.errorMsg "list_fold expects 3 arguments")
  | "int_parse" | "string_split" | "string_split_once" | "string_replace"
  | "string_uppercase" | "string_lowercase" | "string_to_binary"
  | "string_from_binary" | "binary_from_integers" | "binary_fold" =>
    brkSet s (.errorMsg ("builtin not modelled: " ++ name))
  | _ => brkSet s (.errorMsg ("builtin not modelled: " ++ name))

mutual

/-- Go `State.call`, fueled: `*Closure` switches to a fresh copy of the
captured environment extended with the parameter and evaluates the body;
`*Partial` appends the argument and either invokes the implementation
(at or above the required count) or yields a larger `Partial`; `*Resume`
pushes the saved frames back (original top-to-bottom order) and sets the
argument as the value; anything else is "not a function".  The fuel only
bounds the `call` -> `Impl` -> `call` reentry depth of `caseMatch` /
`handle`; every reentry descends to structurally smaller values (each
callee is drawn from the applied arguments and each payload from inside
the argument), so the depth is below the size of the values involved and
the `call` wrapper's huge constant is unreachable. -/
def callF : Nat → MState → Value → Value → MState
  | 0, s, _, _ => brkSet s (.errorMsg "call depth exhausted")
  | n + 1, s, fn, arg =>
    match fn with
    | .vClosure lam cap =>
      match lam with
      | .lambdaE p b =>
        let (a, store') := alloc s.store (envInsert p arg (storeGet s.store cap))
        { s with env := a, store := store', control := .expr b, isValue := false }
      | _ => brkSet s (.errorMsg "lambda missing parameter label")
    | .vPartApp exp applied impl =>
      if getRequiredArgs exp ≤ applied.length + 1 then runImplF n impl (applied ++ [arg]) s
      else setValue s (.vPartApp exp (applied ++ [arg]) impl)
    | .vResume reversed =>
      setValue { s with stack := reversed ++ s.stack } arg
    | _ => brkSet s (.errorMsg "not a function")

/-- Dispatch of the Go `Partial.Impl` function pointers: the record /
list / union / effect primitives defined on `State` plus the builtin
table. -/
def runImplF : Nat → Impl → List Value → MState → MState
  | 0, _, _, s => brkSet s (.errorMsg "call depth exhausted")
  | n + 1, impl, args, s =>
    match impl, args with
    | .consI, [item, tail] =>
      match tail with
      | .vList xs => setValue s (.vList (item :: xs))
      | _ => brkSet s (.errorMsg "cons tail must be a list")
    | .consI, _ => brkSet s (.errorMsg "cons expects 2 arguments")
    | .extendI l, [value, rest] =>
      match rest with
      | .vRecord fields => setValue s (.vRecord (envInsert l value fields))
      | _ => brkSet s (.errorMsg "extend rest must be a record")
    | .extendI _, _ => brkSet s (.errorMsg "extend expects 2 arguments")
    | .selectI l, [record] =>
      match record with
      | .vRecord fields =>
        match envLookup fields l with
        | some v => setValue s v
        | none => brkSet s (.errorMsg ("missing label: " ++ l))
      | _ => brkSet s (.errorMsg "select argument must be a record")
    | .selectI _, _ => brkSet s (.errorMsg "select expects 1 argument")
    | .tagI l, [v] => setValue s (.vTagged l v)
    | .tagI _, _ => brkSet s (.errorMsg "tag expects 1 argument")
    | .caseI l, [branch, otherwise, v] =>
      match v with
      | .vTagged t payload =>
        if t = l then callF n s branch payload
        else callF n s otherwise (.vTagged t payload)
      | _ => brkSet s (.errorMsg "case value must be tagged")
    | .caseI _, _ => brkSet s (.errorMsg "case expects 3 arguments")
    | .nocasesI, _ => brkSet s (.errorMsg "no cases matched")
    | .performI l, [lift] => brkSet s (.effect l lift)
    | .performI _, _ => brkSet s (.errorMsg "perform expects 1 argument")
    | .handleI l, [h, ex] =>
      callF n { s with stack := .delimitCont l h :: s.stack } ex (.vRecord [])
    | .handleI _, _ => brkSet s (.errorMsg "handle expects 2 arguments")
    | .builtinI name, _ => runBuiltin name args s

end

/-- Go `State.call` (see `callF` for the case analysis and why the
constant fuel is unreachable). -/
def call (s : MState) (fn : Value) (arg : Value) : MState :=
  callF 1000000000 s fn arg

/-- Go `State.eval`: dispatch on the expression kind.  Variable lookup
failure mirrors `GetVariable` (Break set, `nil` becomes the value);
`Apply` pushes an `ArgCont` holding a copy of the current environment
and moves to the function (function first, argument later); `Let` pushes
an `AssignCont`; literals become values; the builders become curried
`Partial`s; unknown builtin names break. -/
def evalStep (s : MState) (e : Expr) : MState :=
  match e with
  | .varE l =>
    match envLookup (storeGet s.store s.env) l with
    | some v => setValue s v
    | none => brkSet (setValue s .vNil) (.undefinedVariable l)
  | .lambdaE p b =>
    let (a, store') := alloc s.store (storeGet s.store s.env)
    setValue { s with store := store' } (.vClosure (.lambdaE p b) a)
  | .applyE f arg =>
    let (a, store') := alloc s.store (storeGet s.store s.env)
    { s with store := store', stack := .argCont arg a :: s.stack,
             control := .expr f, isValue := false }
  | .letE l v t =>
    let (a, store') := alloc s.store (storeGet s.store s.env)
    { s with store := store', stack := .assignCont l t a :: s.stack,
             control := .expr v, isValue := false }
  | .vacantE => brkSet s .notImplemented
  | .binaryE v => setValue s v
  | .intE n => setValue s (.vInt n)
  | .strE str => setValue s (.vStr str)
  | .tailE => setValue s (.vList [])
  | .consE => setValue s (.vPartApp .consE [] .consI)
  | .emptyE => setValue s (.vRecord [])
  | .extendE l => setValue s (.vPartApp (.extendE l) [] (.extendI l))
  | .overwriteE l => setValue s (.vPartApp (.overwriteE l) [] (.extendI l))
  | .selectE l => setValue s (.vPartApp (.selectE l) [] (.selectI l))
  | .tagE l => setValue s (.vPartApp (.tagE l) [] (.tagI l))
  | .caseE l => setValue s (.vPartApp (.caseE l) [] (.caseI l))
  | .nocasesE => setValue s (.vPartApp .nocasesE [] .nocasesI)
  | .performE l => setValue s (.vPartApp (.performE l) [] (.performI l))
  | .handleE l => setValue s (.vPartApp (.handleE l) [] (.handleI l))
  | .builtinE l =>
    if knownBuiltin l then setValue s (.vPartApp (.builtinE l) [] (.builtinI l))
    else brkSet s (.undefinedBuiltin l)

/-- Go `State.apply`: pop the top continuation and feed it the value in
control.  An empty stack is a no-op (done).  `AssignCont` binds the
label into the CURRENT environment map in place and moves to the (let)
body; `ArgCont` pushes an `ApplyCont` sharing the very same environment
reference, installs it as current, and evaluates the argument;
`ApplyCont`/`CallCont` restore their environment and call;
`DelimitCont` is a no-op (the value passes through). -/
def applyStep (s : MState) : MState :=
  match s.stack with
  | [] => s
  | c :: rest =>
    let value := ctlVal s.control
    let s1 : MState := { s with stack := rest }
    match c with
    | .assignCont l t _ =>
      { s1 with store := storeSet s1.store s1.env
                  (envInsert l value (storeGet s1.store s1.env)),
                control := .expr t, isValue := false }
    | .argCont a e =>
      { s1 with stack := .applyCont value e :: rest, env := e,
                control := .expr a, isValue := false }
    | .applyCont f e => call { s1 with env := e } f value
    | .callCont a e => call { s1 with env := e } value a
    | .delimitCont _ _ => s1

/-- Go `State.Step`: `apply` when control is a value, else `eval`
(a non-Expression control under `eval` is the type-assertion break). -/
def step (s : MState) : MState :=
  if s.isValue then applyStep s
  else
    match s.control with
    | .expr e => evalStep s e
    | .val _ => brkSet s (.errorMsg "expected expression")

/-- Go `State.Loop`: step until a break is set or a value meets the empty
stack, with explicit fuel (the Go loop may run forever). -/
def loop : Nat → MState → MState
  | 0, s => s
  | n + 1, s =>
    let s' := step s
    if s'.brk.isSome || (s'.isValue && s'.stack.isEmpty) then s' else loop n s'

/-- Go `State.Resume`: set the value, clear the break and loop. -/
def resumeWith (fuel : Nat) (s : MState) (v : Value) : MState :=
  loop fuel { s with control := .val v, isValue := true, brk := none }

/-- Go `NewState`: fresh empty environment at address 0. -/
def initState (e : Expr) : MState :=
  { control := .expr e, isValue := false, env := 0, store := [[]],
    stack := [], brk := none }

/-- Host-supplied extrinsic handlers (the Go `Extrinsic` map; the error
path of a handler is not exercised here). -/
abbrev Extrinsic := List (String × (Value → Value))

/-- Lookup of an extrinsic handler by effect label. -/
def extLookup (ext : Extrinsic) (l : String) : Option (Value → Value) :=
  match ext with
  | [] => none
  | (k, h) :: rest => if k = l then some h else extLookup rest l

/-- Result of the Go `Exec` driver. -/
inductive ExecResult where
  | ok (v : Value) : ExecResult
  | unhandledEffect (label : String) : ExecResult
  | failure (b : BreakV) : ExecResult
  | timeout : ExecResult

/-- Go `Exec`: repeatedly `Step`; on normal completion return the control
value; on an `Effect` break consult the extrinsics — a hit clears the
break, feeds the handler result back via `Resume` (which loops
in-machine) and keeps driving, a miss is the unhandled-effect failure
naming the label; any other break is a failure. -/
def exec : Nat → Extrinsic → MState → ExecResult
  | 0, _, _ => .timeout
  | n + 1, ext, s =>
    let s' := step s
    match s'.brk with
    | none =>
      if s'.isValue && s'.stack.isEmpty then .ok (ctlVal s'.control)
      else exec n ext s'
    | some (.effect l v) =>
      match extLookup ext l with
      | none => .unhandledEffect l
      | some h => exec n ext (resumeWith n { s' with brk := none } (h v))
    | some b => .failure b


/-- Iterated `step` (for pinpointing individual machine states). -/
def stepN : Nat → MState → MState
  | 0, s => s
  | n + 1, s => stepN n (step s)

/-- Spec scenario for claim C1: `handle Alert` with a two-argument
handler, applied to a thunk that performs `Alert 7`. -/
def progHandleInt : Expr :=
  .applyE (.applyE (.handleE "Alert") (.lambdaE "v" (.lambdaE "r" (.strE "handled"))))
    (.lambdaE "_" (.applyE (.performE "Alert") (.intE 7)))

/-- Spec scenario 2: `handle Alert(|v,_resume| v, |_| perform Alert("boom"))`. -/
def progHandleBoom : Expr :=
  .applyE (.applyE (.handleE "Alert") (.lambdaE "v" (.lambdaE "_resume" (.varE "v"))))
    (.lambdaE "_" (.applyE (.performE "Alert") (.strE "boom")))

/-- Spec scenario 1: `let _ = perform Log("x") in 42`. -/
def progLog42 : Expr :=
  .letE "_" (.applyE (.performE "Log") (.strE "x")) (.intE 42)

/-- A bare `perform Boom("p")` with no handler anywhere. -/
def progPerformOnly : Expr := .applyE (.performE "Boom") (.strE "p")

/-- The environment-aliasing probe `let r = cons(let x = 1 in x) in x`:
the inner `x` is bound while the current environment is the very map
stored in the pushed `ApplyCont` frame. -/
def progLetLeak : Expr :=
  .letE "r" (.applyE .consE (.letE "x" (.intE 1) (.varE "x"))) (.varE "x")

/-- The claim C6 example `let x = ((lambda y. y) 1) in y`. -/
def progLetCall : Expr :=
  .letE "x" (.applyE (.lambdaE "y" (.varE "y")) (.intE 1)) (.varE "y")

/-- The `Log` extrinsic of the repository's `RunExample`: ignore the
payload, return an empty record. -/
def extLog : Extrinsic := [("Log", fun _ => .vRecord [])]

/-- C1: the spec claims that whenever stepping sets `Break` to an Effect,
the machine scans the Stack top-down for the nearest matching
`DelimitCont`, splits the frames above it off into a `Resume`, removes
the delimiter, runs the handler, clears the break and continues, and
surfaces the effect only when no matching delimiter exists.  The code
has no such resolution anywhere: `apply` treats `DelimitCont` as a pure
pop ignoring its label and handler (first conjunct), and `Loop` returns
the moment `Break` is set, so the effect of `progHandleInt` surfaces to
the external driver even though a `DelimitCont` with the very same label
`Alert` is still sitting on the Stack and its handler was never run
(second and third conjuncts). -/
theorem c1_effect_surfaces_despite_matching_delimiter :
    (∀ (v : Value) (l : String) (h : Value) (env : Nat) (store : List EnvMap)
       (rest : List Continuation) (b : Option BreakV),
       step ⟨.val v, true, env, store, .delimitCont l h :: rest, b⟩ =
         ⟨.val v, true, env, store, rest, b⟩) ∧
    (loop 20 (initState progHandleInt)).brk = some (.effect "Alert" (.vInt 7)) ∧
    (loop 20 (initState progHandleInt)).stack =
      [.delimitCont "Alert"
        (.vClosure (.lambdaE "v" (.lambdaE "r" (.strE "handled"))) 3)] :=
  ⟨fun _ _ _ _ _ _ _ => rfl, rfl, rfl⟩

/-- C2: the spec claims a handler that never calls resume gives abort
semantics, so `handle Alert(|v,_resume| v, |_| perform Alert("boom"))`
terminates successfully with `"boom"`.  In the code the in-machine
handler is never invoked: the machine halts with `Break =
Effect{Alert,"boom"}` (the handler closure still parked in the
`DelimitCont` on the stack) and the public driver `Exec` fails with an
unhandled-effect error instead of producing `"boom"`. -/
theorem c2_handle_does_not_abort_with_handler_value :
    exec 20 [] (initState progHandleBoom) = .unhandledEffect "Alert" ∧
    (loop 20 (initState progHandleBoom)).brk =
      some (.effect "Alert" (.vStr "boom")) ∧
    (loop 20 (initState progHandleBoom)).stack =
      [.delimitCont "Alert"
        (.vClosure (.lambdaE "v" (.lambdaE "_resume" (.varE "v"))) 3)] :=
  ⟨rfl, rfl, rfl⟩

/-- C3: when an Effect reaches `Exec` and the extrinsics know the label,
the handler runs on the lifted value and its result is spliced back via
`Resume` after which the driver keeps stepping (first conjunct: the spec
scenario `let _ = perform Log("x") in 42` finishes with `42`, not with
the handler's unit); with no matching extrinsic, `Exec` fails naming the
label (second conjunct, and third conjunct in general over all states);
the fourth conjunct is the general splice-and-continue shape of the
driver's effect branch: the handler's return value is resumed into the
machine and driving continues. -/
theorem c3_exec_extrinsic_splice_and_unhandled :
    exec 30 extLog (initState progLog42) = .ok (.vInt 42) ∧
    exec 30 [] (initState progLog42) = .unhandledEffect "Log" ∧
    (∀ (n : Nat) (ext : Extrinsic) (s : MState) (l : String) (v : Value),
      (step s).brk = some (.effect l v) → extLookup ext l = none →
      exec (n + 1) ext s = .unhandledEffect l) ∧
    (∀ (n : Nat) (ext : Extrinsic) (s : MState) (l : String) (v : Value)
       (h : Value → Value),
      (step s).brk = some (.effect l v) → extLookup ext l = some h →
      exec (n + 1) ext s =
        exec n ext (resumeWith n { step s with brk := none } (h v))) := by
  refine ⟨rfl, rfl, ?_, ?_⟩
  · intro n ext s l v h1 h2
    simp [exec, h1, h2]
  · intro n ext s l v h h1 h2
    simp [exec, h1, h2]

/-- Witness for C3: the general conjuncts instantiated at the state of
`progPerformOnly` four steps in, whose next step raises
`Effect{Boom,"p"}`; with no extrinsics the driver fails naming `Boom`,
and with a constant extrinsic the driver takes the splice-and-continue
branch. -/
theorem c3_exec_witness :
    exec 6 [] (stepN 4 (initState progPerformOnly)) = .unhandledEffect "Boom" ∧
    exec 6 [("Boom", fun _ => Value.vInt 9)] (stepN 4 (initState progPerformOnly)) =
      exec 5 [("Boom", fun _ => Value.vInt 9)]
        (resumeWith 5
          { step (stepN 4 (initState progPerformOnly)) with brk := none }
          ((fun _ => Value.vInt 9) (Value.vStr "p"))) := by
  constructor
  · exact c3_exec_extrinsic_splice_and_unhandled.2.2.1 5 []
      (stepN 4 (initState progPerformOnly)) "Boom" (.vStr "p") rfl rfl
  · exact c3_exec_extrinsic_splice_and_unhandled.2.2.2 5
      [("Boom", fun _ => Value.vInt 9)] (stepN 4 (initState progPerformOnly))
      "Boom" (.vStr "p") (fun _ => Value.vInt 9) rfl rfl

/-- C4: calling the 1-ary `perform(L)` callable with `v` only sets
`Break = Effect{L,v}` — control, environment, store and Stack are left
exactly as they were (first conjunct, an equation on whole states); and
with no `handle(L)` anywhere on the dynamic stack the machine surfaces
`Effect(L,v)` to the external driver with the lifted value unchanged,
which the driver reports as unhandled (remaining conjuncts). -/
theorem c4_perform_sets_break_leaves_stack :
    (∀ (s : MState) (l : String) (v : Value),
      call s (.vPartApp (.performE l) [] (.performI l)) v =
        brkSet s (.effect l v)) ∧
    (loop 20 (initState progPerformOnly)).brk =
      some (.effect "Boom" (.vStr "p")) ∧
    (loop 20 (initState progPerformOnly)).stack = [] ∧
    exec 20 [] (initState progPerformOnly) = .unhandledEffect "Boom" :=
  ⟨fun _ _ _ => rfl, rfl, rfl, rfl⟩

/-- C5: the spec claims every environment captured by a Closure, Resume
or stack frame is never mutated afterwards.  The code breaks this for
stack frames: applying an `ArgCont` installs the frame's map as the
current environment while pushing an `ApplyCont` holding that same map,
and a later `AssignCont` binding mutates it in place.  Running
`progLetLeak` (`let r = cons(let x = 1 in x) in x`): after 6 steps the
stack holds `ApplyCont{env=2}` (pushed two steps earlier) and map 2 is
empty; the 7th step — applying `AssignCont{x}` — rebinds map 2 to
`{x=1}` while the `ApplyCont` frame still holds address 2; consequently
the whole program evaluates to `1`, the let-bound `x` escaping its
scope, where immutable frame environments would give
`UndefinedVariable("x")`. -/
theorem c5_frame_environment_mutated_after_capture :
    (stepN 6 (initState progLetLeak)).stack =
      [.assignCont "x" (.varE "x") 3,
       .applyCont (.vPartApp .consE [] .consI) 2,
       .assignCont "r" (.varE "x") 1] ∧
    storeGet (stepN 6 (initState progLetLeak)).store 2 = [] ∧
    (stepN 7 (initState progLetLeak)).stack =
      [.applyCont (.vPartApp .consE [] .consI) 2,
       .assignCont "r" (.varE "x") 1] ∧
    storeGet (stepN 7 (initState progLetLeak)).store 2 = [("x", .vInt 1)] ∧
    (loop 20 (initState progLetLeak)).control = .val (.vInt 1) ∧
    (loop 20 (initState progLetLeak)).brk = none :=
  ⟨rfl, rfl, rfl, rfl, rfl, rfl⟩

/-- C6: applying an `AssignCont` inserts the bound label into whatever
environment is current at that moment and evaluates the stored `then`
expression there, without restoring the environment saved in the frame
(first conjunct: the frame's `env` field is ignored, the current `env`
address is untouched and its map gains the binding); consequently
`let x = ((lambda y. y) 1) in y` evaluates to `1` — the callee's
parameter binding `y` is still visible in the let body — rather than
breaking with `UndefinedVariable("y")` (remaining conjuncts). -/
theorem c6_assign_binds_into_current_environment :
    (∀ (v : Value) (l : String) (t : Expr) (eA env : Nat)
       (store : List EnvMap) (rest : List Continuation) (b : Option BreakV),
      step ⟨.val v, true, env, store, .assignCont l t eA :: rest, b⟩ =
        ⟨.expr t, false, env,
         storeSet store env (envInsert l v (storeGet store env)), rest, b⟩) ∧
    (loop 20 (initState progLetCall)).control = .val (.vInt 1) ∧
    (loop 20 (initState progLetCall)).brk = none :=
  ⟨fun _ _ _ _ _ _ _ _ => rfl, rfl, rfl⟩

/-- Supplying arguments to a callable one at a time (the uniform unary
calling convention): the resulting machine state after the last `call`;
with no arguments the callable itself is the value in control. -/
def feedVals (s : MState) (fn : Value) : List Value → MState
  | [] => setValue s fn
  | [a] => call s fn a
  | a :: rest =>
    let s' := call s fn a
    feedVals s' (ctlVal s'.control) rest

theorem setValue_setValue (s : MState) (v w : Value) :
    setValue (setValue s v) w = setValue s w := rfl

/-- A call on a `Partial` still below its required count appends the
argument into a new `Partial`. -/
theorem call_underApplied (s : MState) (exp : Expr) (applied : List Value)
    (impl : Impl) (arg : Value) (h : applied.length + 1 < getRequiredArgs exp) :
    call s (.vPartApp exp applied impl) arg =
      setValue s (.vPartApp exp (applied ++ [arg]) impl) := by
  simp only [call, callF]
  rw [if_neg (by omega)]

/-- A call on a builtin `Partial` reaching (or passing) the declared
count invokes the builtin implementation on all accumulated arguments in
order. -/
theorem call_invokesBuiltin (s : MState) (name : String) (applied : List Value)
    (arg : Value) (h : getBuiltinArgCount name ≤ applied.length + 1) :
    call s (.vPartApp (.builtinE name) applied (.builtinI name)) arg =
      runBuiltin name (applied ++ [arg]) s := by
  simp only [call, callF, getRequiredArgs]
  rw [if_pos (by omega)]
  simp only [runImplF]

/-- Feeding a run of arguments that stays strictly below the required
count just accumulates them in order. -/
theorem feedVals_underApplied (xs : List Value) :
    ∀ (s : MState) (exp : Expr) (applied : List Value) (impl : Impl),
      applied.length + xs.length < getRequiredArgs exp →
      feedVals s (.vPartApp exp applied impl) xs =
        setValue s (.vPartApp exp (applied ++ xs) impl) := by
  induction xs with
  | nil => intro s exp applied impl _; simp [feedVals]
  | cons a rest ih =>
    intro s exp applied impl h
    cases rest with
    | nil =>
      simp only [feedVals]
      rw [call_underApplied s exp applied impl a (by simp at h; omega)]
    | cons b rest' =>
      simp only [feedVals]
      rw [call_underApplied s exp applied impl a (by simp at h; omega)]
      have := ih (setValue s (.vPartApp exp (applied ++ [a]) impl)) exp
        (applied ++ [a]) impl (by simp at h ⊢; omega)
      simpa [setValue_setValue] using this

/-- Two-phase feeding: consuming a nonempty under-arity run `xs` first
and continuing from the intermediate `Partial` visits exactly the states
of the single-run feed. -/
theorem feedVals_split (xs : List Value) :
    ∀ (s : MState) (exp : Expr) (applied : List Value) (impl : Impl)
      (ys : List Value),
      0 < xs.length → 0 < ys.length →
      applied.length + xs.length < getRequiredArgs exp →
      feedVals s (.vPartApp exp applied impl) (xs ++ ys) =
        feedVals (setValue s (.vPartApp exp (applied ++ xs) impl))
          (.vPartApp exp (applied ++ xs) impl) ys := by
  induction xs with
  | nil => intro _ _ _ _ _ hx; simp at hx
  | cons a rest ih =>
    intro s exp applied impl ys _ hy h
    cases rest with
    | nil =>
      cases ys with
      | nil => simp at hy
      | cons y ys' =>
        simp only [List.singleton_append, feedVals]
        rw [call_underApplied s exp applied impl a (by simp at h; omega)]
        rfl
    | cons b rest' =>
      have hne : (b :: rest') ++ ys ≠ [] := by simp
      simp only [List.cons_append, feedVals]
      rw [call_underApplied s exp applied impl a (by simp at h; omega)]
      have := ih (setValue s (.vPartApp exp (applied ++ [a]) impl)) exp
        (applied ++ [a]) impl ys (by simp) hy (by simp at h ⊢; omega)
      simpa [setValue_setValue] using this

/-- C7: for a builtin of declared arity n (the `getBuiltinArgCount`
table), a call on its `Partial` below n accumulates the argument into a
new `Partial` (first conjunct, stated for every `Partial`); the
implementation is invoked exactly upon receipt of the n-th argument,
with all accumulated arguments in order (second conjunct, which also
covers the defensive at-or-above guard `len(applied) >= requiredArgs` of
the source); and supplying k < n arguments one at a time and then the
remaining n−k from the resulting `Partial`, in order, is the same as
supplying all n in sequence from the start (third conjunct). -/
theorem c7_builtin_currying :
    (∀ (s : MState) (exp : Expr) (applied : List Value) (impl : Impl)
       (arg : Value),
      applied.length + 1 < getRequiredArgs exp →
      call s (.vPartApp exp applied impl) arg =
        setValue s (.vPartApp exp (applied ++ [arg]) impl)) ∧
    (∀ (s : MState) (name : String) (applied : List Value) (arg : Value),
      getBuiltinArgCount name ≤ applied.length + 1 →
      call s (.vPartApp (.builtinE name) applied (.builtinI name)) arg =
        runBuiltin name (applied ++ [arg]) s) ∧
    (∀ (s : MState) (name : String) (xs ys : List Value),
      0 < xs.length → 0 < ys.length →
      xs.length + ys.length = getBuiltinArgCount name →
      feedVals (feedVals s (.vPartApp (.builtinE name) [] (.builtinI name)) xs)
        (.vPartApp (.builtinE name) xs (.builtinI name)) ys =
      feedVals s (.vPartApp (.builtinE name) [] (.builtinI name)) (xs ++ ys)) := by
  refine ⟨call_underApplied, call_invokesBuiltin, ?_⟩
  intro s name xs ys hx hy hn
  rw [feedVals_underApplied xs s (.builtinE name) [] (.builtinI name)
      (by simpa [getRequiredArgs] using by omega)]
  rw [feedVals_split xs s (.builtinE name) [] (.builtinI name) ys hx hy
      (by simpa [getRequiredArgs] using by omega)]
  simp

/-- Witness for C7: `string_replace` (arity 3) takes a first argument
into a bigger `Partial`; `int_add` (arity 2) fires its implementation on
the second argument; and feeding `int_add` with `1` then `2` from the
intermediate `Partial` equals feeding `[1, 2]` straight through. -/
theorem c7_builtin_currying_witness :
    call (initState (.intE 0))
        (.vPartApp (.builtinE "string_replace") [] (.builtinI "string_replace"))
        (.vStr "a") =
      setValue (initState (.intE 0))
        (.vPartApp (.builtinE "string_replace") [.vStr "a"]
          (.builtinI "string_replace")) ∧
    call (initState (.intE 0))
        (.vPartApp (.builtinE "int_add") [.vInt 1] (.builtinI "int_add"))
        (.vInt 2) =
      runBuiltin "int_add" [.vInt 1, .vInt 2] (initState (.intE 0)) ∧
    feedVals
        (feedVals (initState (.intE 0))
          (.vPartApp (.builtinE "int_add") [] (.builtinI "int_add")) [.vInt 1])
        (.vPartApp (.builtinE "int_add") [.vInt 1] (.builtinI "int_add"))
        [.vInt 2] =
      feedVals (initState (.intE 0))
        (.vPartApp (.builtinE "int_add") [] (.builtinI "int_add"))
        ([.vInt 1] ++ [.vInt 2]) :=
  ⟨c7_builtin_currying.1 (initState (.intE 0)) (.builtinE "string_replace") []
      (.builtinI "string_replace") (.vStr "a") (by decide),
   c7_builtin_currying.2.1 (initState (.intE 0)) "int_add" [.vInt 1] (.vInt 2)
      (by decide),
   c7_builtin_currying.2.2 (initState (.intE 0)) "int_add" [.vInt 1] [.vInt 2]
      (by decide) (by decide) (by decide)⟩

/-- The divide-by-zero spec program `int_divide(1, 0)`. -/
def progDivZero : Expr :=
  .applyE (.applyE (.builtinE "int_divide") (.intE 1)) (.intE 0)

/-- Equation form of `builtinIntDivide` on integer arguments. -/
theorem runBuiltin_int_divide (s : MState) (a b : Int) :
    runBuiltin "int_divide" [.vInt a, .vInt b] s =
      if b = 0 then setValue s (.vTagged "Error" (.vRecord []))
      else setValue s (.vTagged "Ok" (.vInt (Int.tdiv a b))) := rfl

/-- C8: `int_divide` on two integers yields `Tagged{"Ok", quotient}` for
a nonzero divisor and `Tagged{"Error", unit record}` for a zero divisor
(first conjunct, where the quotient is Go's truncated integer division);
it never sets Break (second conjunct: the break condition is whatever it
already was); in particular `int_divide(1,0)` evaluates in the machine
to `Tagged{"Error", unit}` with no break (remaining conjuncts). -/
theorem c8_int_divide_domain_error_not_break :
    (∀ (s : MState) (a b : Int),
      runBuiltin "int_divide" [.vInt a, .vInt b] s =
        if b = 0 then setValue s (.vTagged "Error" (.vRecord []))
        else setValue s (.vTagged "Ok" (.vInt (Int.tdiv a b)))) ∧
    (∀ (s : MState) (a b : Int),
      (runBuiltin "int_divide" [.vInt a, .vInt b] s).brk = s.brk) ∧
    (loop 20 (initState progDivZero)).control =
      .val (.vTagged "Error" (.vRecord [])) ∧
    (loop 20 (initState progDivZero)).brk = none := by
  refine ⟨runBuiltin_int_divide, ?_, rfl, rfl⟩
  intro s a b
  rw [runBuiltin_int_divide]
  by_cases hb : b = 0 <;> simp [hb, setValue]

/-- Whether a key occurs in an association-list map. -/
def keysContain (fields : EnvMap) (k : String) : Bool :=
  match fields with
  | [] => false
  | (k', _) :: rest => k' == k || keysContain rest k

/-- Unique keys, the invariant every Go map enjoys by construction. -/
def nodupKeysB : EnvMap → Bool
  | [] => true
  | (k, _) :: rest => !(keysContain rest k) && nodupKeysB rest

mutual

/-- First-order data: values built only from nil, numbers, strings,
lists, records with unique keys, and tags — the fragment on which Go's
`a == b` fallback is plain value equality (no pointer-identity
`*Closure`/`*Partial`/`*Resume` anywhere inside). -/
def firstOrderData : Value → Bool
  | .vNil => true
  | .vInt _ => true
  | .vStr _ => true
  | .vTagged _ p => firstOrderData p
  | .vList xs => firstOrderDataList xs
  | .vRecord fields => nodupKeysB fields && firstOrderDataFields fields
  | .vClosure _ _ => false
  | .vPartApp _ _ _ => false
  | .vResume _ => false
termination_by v => sizeOf v

/-- All elements first-order. -/
def firstOrderDataList : List Value → Bool
  | [] => true
  | v :: vs => firstOrderData v && firstOrderDataList vs
termination_by xs => sizeOf xs

/-- All field values first-order. -/
def firstOrderDataFields : EnvMap → Bool
  | [] => true
  | (_, v) :: rest => firstOrderData v && firstOrderDataFields rest
termination_by fs => sizeOf fs

end

theorem keysContain_of_mem {fields : EnvMap} {k : String} {v : Value}
    (h : (k, v) ∈ fields) : keysContain fields k = true := by
  induction fields with
  | nil => simp at h
  | cons kv rest ih =>
    obtain ⟨k', w⟩ := kv
    rcases List.mem_cons.mp h with h1 | h1
    · simp [keysContain, (Prod.mk.injEq .. ▸ h1).1]
    · simp [keysContain, ih h1]

theorem envLookup_of_mem_nodup {fields : EnvMap} {k : String} {v : Value}
    (hnd : nodupKeysB fields = true) (hm : (k, v) ∈ fields) :
    envLookup fields k = some v := by
  induction fields with
  | nil => simp at hm
  | cons kv rest ih =>
    obtain ⟨k', w⟩ := kv
    simp only [nodupKeysB, Bool.and_eq_true, Bool.not_eq_true'] at hnd
    rcases List.mem_cons.mp hm with h1 | h1
    · obtain ⟨hk, hv⟩ := Prod.mk.injEq .. ▸ h1
      simp [envLookup, hk.symm, hv]
    · have hne : k' ≠ k := by
        intro he
        rw [he] at hnd
        exact absurd (keysContain_of_mem h1) (by simp [hnd.1])
      simp [envLookup, hne, ih hnd.2 h1]

theorem valuesEqualList_refl_of {xs : List Value}
    (h : ∀ x ∈ xs, valuesEqual x x = true) : valuesEqualList xs xs = true := by
  induction xs with
  | nil => rw [valuesEqualList]
  | cons x rest ih =>
    rw [valuesEqualList, Bool.and_eq_true]
    exact ⟨h x (by simp), ih fun y hy => h y (by simp [hy])⟩

theorem valuesEqualFields_of_lookup {sub fa : EnvMap}
    (h : ∀ kv ∈ sub, envLookup fa kv.1 = some kv.2 ∧
         valuesEqual kv.2 kv.2 = true) : valuesEqualFields sub fa = true := by
  induction sub with
  | nil => rw [valuesEqualFields]
  | cons kv rest ih =>
    obtain ⟨k, v⟩ := kv
    rw [valuesEqualFields, Bool.and_eq_true]
    obtain ⟨h1, h2⟩ := h (k, v) (by simp)
    constructor
    · split
      · next w hw =>
        rw [h1] at hw
        injection hw with h3
        rw [← h3]
        exact h2
      · next hw => rw [h1] at hw; simp at hw
    · exact ih fun y hy => h y (by simp [hy])

theorem firstOrderDataList_mem {xs : List Value} {x : Value}
    (h : firstOrderDataList xs = true) (hm : x ∈ xs) :
    firstOrderData x = true := by
  induction xs with
  | nil => simp at hm
  | cons y rest ih =>
    rw [firstOrderDataList, Bool.and_eq_true] at h
    rcases List.mem_cons.mp hm with h1 | h1
    · exact h1 ▸ h.1
    · exact ih h.2 h1

theorem firstOrderDataFields_mem {fs : EnvMap} {k : String} {v : Value}
    (h : firstOrderDataFields fs = true) (hm : (k, v) ∈ fs) :
    firstOrderData v = true := by
  induction fs with
  | nil => simp at hm
  | cons kv rest ih =>
    obtain ⟨k', w⟩ := kv
    rw [firstOrderDataFields, Bool.and_eq_true] at h
    rcases List.mem_cons.mp hm with h1 | h1
    · exact (Prod.mk.injEq .. ▸ h1).2 ▸ h.1
    · exact ih h.2 h1

theorem sizeOf_mem_list {xs : List Value} {x : Value} (h : x ∈ xs) :
    sizeOf x < sizeOf (Value.vList xs) := by
  have := List.sizeOf_lt_of_mem h
  simp
  omega

theorem sizeOf_mem_fields {fs : EnvMap} {k : String} {v : Value}
    (h : (k, v) ∈ fs) : sizeOf v < sizeOf (Value.vRecord fs) := by
  have := List.sizeOf_lt_of_mem h
  simp at this ⊢
  omega

/-- Reflexivity of `valuesEqual` on first-order data (Go compares such
values there by plain value equality; records need unique keys so each
binding finds itself). -/
theorem valuesEqual_refl_aux :
    ∀ (n : Nat) (v : Value), sizeOf v < n → firstOrderData v = true →
      valuesEqual v v = true := by
  intro n
  induction n with
  | zero => intro v hv _; omega
  | succ n ih =>
    intro v hv hfo
    match v with
    | .vNil => rw [valuesEqual]
    | .vInt a => rw [valuesEqual]; simp
    | .vStr a => rw [valuesEqual]; simp
    | .vTagged t p =>
      rw [valuesEqual]
      rw [firstOrderData] at hfo
      have hs : sizeOf p < n := by simp at hv; omega
      simp [ih p hs hfo]
    | .vList xs =>
      rw [valuesEqual]
      rw [firstOrderData] at hfo
      simp only [beq_self_eq_true, Bool.true_and]
      exact valuesEqualList_refl_of fun x hx =>
        ih x (by have := sizeOf_mem_list hx; omega)
          (firstOrderDataList_mem hfo hx)
    | .vRecord fields =>
      rw [valuesEqual]
      rw [firstOrderData, Bool.and_eq_true] at hfo
      simp only [beq_self_eq_true, Bool.true_and]
      exact valuesEqualFields_of_lookup fun kv hkv =>
        ⟨envLookup_of_mem_nodup hfo.1 hkv,
         ih kv.2 (by have := sizeOf_mem_fields hkv; omega)
           (firstOrderDataFields_mem hfo.2 hkv)⟩
    | .vClosure _ _ => simp [firstOrderData] at hfo
    | .vPartApp _ _ _ => simp [firstOrderData] at hfo
    | .vResume _ => simp [firstOrderData] at hfo

theorem valuesEqual_refl (v : Value) (h : firstOrderData v = true) :
    valuesEqual v v = true :=
  valuesEqual_refl_aux (sizeOf v + 1) v (by omega) h

theorem valuesEqualList_iff_forall2 :
    ∀ (xs ys : List Value),
      (xs.length = ys.length ∧ valuesEqualList xs ys = true) ↔
        List.Forall₂ (fun a b => valuesEqual a b = true) xs ys := by
  intro xs
  induction xs with
  | nil =>
    intro ys
    cases ys <;> simp [valuesEqualList]
  | cons x rest ih =>
    intro ys
    cases ys with
    | nil => simp
    | cons y ys' =>
      rw [valuesEqualList]
      simp only [List.forall₂_cons, List.length_cons, Bool.and_eq_true]
      constructor
      · rintro ⟨h1, h2, h3⟩
        exact ⟨h2, (ih ys').mp ⟨by omega, h3⟩⟩
      · rintro ⟨h1, h2⟩
        obtain ⟨h3, h4⟩ := (ih ys').mpr h2
        exact ⟨by omega, h1, h4⟩

/-- Record comparison ignores field order: a permuted (unique-key) record
compares equal, each binding finding itself through the lookup. -/
theorem valuesEqual_record_perm {fa fb : EnvMap} (hp : fa.Perm fb)
    (hnd : nodupKeysB fb = true) (hfo : firstOrderDataFields fa = true) :
    valuesEqual (.vRecord fa) (.vRecord fb) = true := by
  rw [valuesEqual]
  simp only [hp.length_eq, beq_self_eq_true, Bool.true_and]
  exact valuesEqualFields_of_lookup fun kv hkv =>
    ⟨envLookup_of_mem_nodup hnd (hp.subset hkv),
     valuesEqual_refl kv.2 (firstOrderDataFields_mem hfo hkv)⟩

/-- C9: the `equal` builtin returns a Tagged `True`/`False` with an
empty-record payload according to `valuesEqual` (first conjunct); deep
structural equality proceeds on tagged values tag first, then payload,
recursively (second conjunct); on lists elementwise in order (third
conjunct, an equivalence with `List.Forall₂`); and on records by key-set
plus values irrespective of order (fourth conjunct: a permutation of a
unique-key first-order record compares equal; fifth conjunct: record
comparison is length plus per-key lookup, order-blind on the right). -/
theorem c9_equal_structural :
    (∀ (s : MState) (a b : Value),
      runBuiltin "equal" [a, b] s =
        if valuesEqual a b then setValue s (.vTagged "True" (.vRecord []))
        else setValue s (.vTagged "False" (.vRecord []))) ∧
    (∀ (t : String) (p : Value) (u : String) (q : Value),
      valuesEqual (.vTagged t p) (.vTagged u q) = (t == u && valuesEqual p q)) ∧
    (∀ (xs ys : List Value),
      valuesEqual (.vList xs) (.vList ys) = true ↔
        List.Forall₂ (fun a b => valuesEqual a b = true) xs ys) ∧
    (∀ (fa fb : EnvMap), fa.Perm fb → nodupKeysB fb = true →
      firstOrderDataFields fa = true →
      valuesEqual (.vRecord fa) (.vRecord fb) = true) ∧
    (∀ (fa fb : EnvMap),
      valuesEqual (.vRecord fa) (.vRecord fb) =
        (fa.length == fb.length && valuesEqualFields fa fb)) := by
  refine ⟨fun s a b => rfl, ?_, ?_, ?_, ?_⟩
  · intro t p u q
    rw [valuesEqual]
  · intro xs ys
    rw [valuesEqual]
    rw [← valuesEqualList_iff_forall2 xs ys]
    simp
  · exact fun fa fb hp hnd hfo => valuesEqual_record_perm hp hnd hfo
  · intro fa fb
    rw [valuesEqual]

/-- Witness for C9: the two-field record `{a = 1, b = "s"}` compares
equal to its reversal, and the list equivalence holds at `[1]` vs `[1]`. -/
theorem c9_equal_structural_witness :
    valuesEqual (.vRecord [("a", .vInt 1), ("b", .vStr "s")])
        (.vRecord [("b", .vStr "s"), ("a", .vInt 1)]) = true ∧
    (valuesEqual (.vList [.vInt 1]) (.vList [.vInt 1]) = true ↔
      List.Forall₂ (fun a b => valuesEqual a b = true) [.vInt 1] [.vInt 1]) :=
  ⟨c9_equal_structural.2.2.2.1 [("a", .vInt 1), ("b", .vStr "s")]
      [("b", .vStr "s"), ("a", .vInt 1)]
      (List.Perm.swap ("b", Value.vStr "s") ("a", Value.vInt 1) [])
      (by simp [nodupKeysB, keysContain])
      (by simp [firstOrderDataFields, firstOrderData]),
   c9_equal_structural.2.2.1 [.vInt 1] [.vInt 1]⟩

theorem utf8_go_ge_length (cs : List Char) :
    cs.length ≤ String.utf8ByteSize.go cs := by
  induction cs with
  | nil => simp [String.utf8ByteSize.go]
  | cons c rest ih =>
    have := Char.utf8Size_pos c
    simp only [String.utf8ByteSize.go, List.length_cons]
    omega

theorem utf8_go_gt_length_of_multibyte {cs : List Char} {c : Char}
    (hm : c ∈ cs) (hs : 1 < c.utf8Size) :
    cs.length < String.utf8ByteSize.go cs := by
  induction cs with
  | nil => simp at hm
  | cons c' rest ih =>
    simp only [String.utf8ByteSize.go, List.length_cons]
    rcases List.mem_cons.mp hm with h1 | h1
    · have := utf8_go_ge_length rest
      rw [h1] at hs
      omega
    · have := ih h1
      have := Char.utf8Size_pos c'
      omega

/-- C10: `string_length` returns the number of bytes of the UTF-8
encoding of the string (Go `len(a)`), as a number value (first
conjunct); for any string containing a multi-byte character this byte
count strictly exceeds the character count (second conjunct). -/
theorem c10_string_length_counts_bytes :
    (∀ (s : MState) (str : String),
      runBuiltin "string_length" [.vStr str] s =
        setValue s (.vInt (str.utf8ByteSize : Int))) ∧
    (∀ str : String, (∃ c ∈ str.data, 1 < c.utf8Size) →
      str.length < str.utf8ByteSize) := by
  refine ⟨fun s str => rfl, ?_⟩
  rintro ⟨data⟩ ⟨c, hm, hs⟩
  exact utf8_go_gt_length_of_multibyte hm hs

/-- Witness for C10: `"aé"` has two characters; `é` is a two-byte
character, so the reported length is 3, strictly above 2. -/
theorem c10_string_length_witness : ("aé" : String).length < "aé".utf8ByteSize :=
  c10_string_length_counts_bytes.2 "aé" ⟨'é', by decide, by decide⟩
